import Mathlib

/-!
Verification of the nba-stats loader core: a shallow embedding of the
warehouse writer (`load/modules/warehouse.py`, `load/modules/utils.py`),
the column normalizer (`utils.py`), the retry/backoff policy
(`load/modules/api.py`), season resolution (`utils.py`) and the async
fetch tasks (`load/modules/fetchers.py`), together with theorems that
settle the specification's claims about them.

Python/pandas values are modelled as follows: a table cell is
`Option String` (`none` is SQL NULL / Python `None`; all scalar values are
rendered as strings), a DataFrame is an ordered column-label list plus a
list of rows, and fallible code returns `Except`/`Option`.
-/

namespace NbaStats

/-- A table cell: `none` models SQL NULL / Python `None`. -/
abbrev Cell := Option String

/-- A pandas DataFrame / DuckDB table: ordered column labels and rows of
cells (each row is positionally aligned with `cols`). -/
structure Df where
  cols : List String
  rows : List (List Cell)
deriving Repr, DecidableEq

/-- The empty frame, `pd.DataFrame()`. -/
def Df.empty : Df := ⟨[], []⟩

/-- Pandas `df.empty`: true when either axis has length 0. -/
def Df.isEmpty (df : Df) : Bool := df.rows.isEmpty || df.cols.isEmpty

/-- Index of the first column labelled `c` (pandas label lookup). -/
def colIdx (cols : List String) (c : String) : Option Nat :=
  match cols with
  | [] => none
  | x :: xs => if x = c then some 0 else (colIdx xs c).map (· + 1)

/-- Value of row `r` at column `c` for a frame with columns `cols`:
the cell at the first matching label, `none` when the column is absent
(the NULL fill used by the alignment step). -/
def getCell (cols : List String) (r : List Cell) (c : String) : Cell :=
  match colIdx cols c with
  | some i => r.getD i none
  | none => none

/-- Model of `align_df_to_existing_columns` (utils.py): reindex `df` to exactly
`existing_cols` — every destination column missing from `df` is filled
with NULL, every input column not in `existing_cols` is dropped, and the
output column order is the destination's. -/
def align_df_to_existing_columns (df : Df) (existing_cols : List String) : Df :=
  { cols := existing_cols
    rows := df.rows.map (fun r => existing_cols.map (fun c => getCell df.cols r c)) }

/-- The `extra` list that `align_df_to_existing_columns` logs in its
"Dropping %d new/unexpected columns" warning: incoming columns absent
from the destination. -/
def dropped_columns (df : Df) (existing_cols : List String) : List String :=
  df.cols.filter (fun c => decide (c ∉ existing_cols))

/-- SQL `season = ?` match used by the one-column delete (a NULL cell
never matches a parameter). -/
def rowMatchesSeason (cols : List String) (r : List Cell) (season : String) : Bool :=
  getCell cols r "season" == some season

/-- SQL `season = ? AND season_type = ?` match used by the two-column
partition delete. -/
def rowMatchesKey (cols : List String) (r : List Cell) (season seasonType : String) : Bool :=
  (getCell cols r "season" == some season) && (getCell cols r "season_type" == some seasonType)

/-- Model of `upsert_raw_table` (warehouse.py), acting on the destination table's
state (`none` = the table does not exist yet):
empty frame → early return; missing table → `CREATE TABLE AS SELECT *`;
otherwise align to the existing schema, delete the partition rows
(`(season, season_type)` when both columns exist, else `season` alone,
else nothing), then insert the aligned rows. -/
def upsert_raw_table (t : Option Df) (df : Df) (season seasonType : String) : Option Df :=
  if df.isEmpty then t
  else
    match t with
    | none => some df
    | some tbl =>
      let aligned := align_df_to_existing_columns df tbl.cols
      let kept :=
        if "season" ∈ tbl.cols ∧ "season_type" ∈ tbl.cols then
          tbl.rows.filter (fun r => !rowMatchesKey tbl.cols r season seasonType)
        else if "season" ∈ tbl.cols then
          tbl.rows.filter (fun r => !rowMatchesSeason tbl.cols r season)
        else tbl.rows
      some { cols := tbl.cols, rows := kept ++ aligned.rows }

/-- The `(season, season_type)` partition of a table: the rows the
two-column delete would target. -/
def partitionRows (t : Df) (season seasonType : String) : List (List Cell) :=
  t.rows.filter (fun r => rowMatchesKey t.cols r season seasonType)

/-- Multiplicity of a row in a list of rows (used to state the
delete-exactly-the-partition property of the upsert). -/
def countRow (r : List Cell) : List (List Cell) → ℕ
  | [] => 0
  | x :: xs => (if x = r then 1 else 0) + countRow r xs

/-- Concrete destination table for the partition-overwrite example:
one already-stored 2025 Regular Season row. -/
def tblC1 : Df :=
  ⟨["season", "season_type", "x"], [[some "2025", some "Regular Season", some "old"]]⟩

/-- Concrete incoming frame for the partition-overwrite example: one row
tagged with the write's own partition key (as the loader produces). -/
def dfC1 : Df :=
  ⟨["season", "season_type", "x"], [[some "2026", some "Regular Season", some "new"]]⟩

/-- Concrete destination table without `season`/`season_type` columns. -/
def tblC9 : Df := ⟨["x"], [[some "a"]]⟩

/-- Concrete incoming frame for the append-only example. -/
def dfC9 : Df := ⟨["x"], [[some "b"]]⟩

/-- Outcome of reading the failed response's `Retry-After` header in
`_retry_wait_seconds` (api.py): no response object was passed, the header
is missing or empty (falsy), `float(retry_after)` raises `ValueError`
(e.g. the literal `"banana"`), or it parses to a number. -/
inductive RetryAfterHeader where
  | noResponse
  | absent
  | unparsable
  | value (retryAfter : ℚ)
deriving Repr, DecidableEq

/-- Model of `_retry_wait_seconds` (api.py) with the env-configured backoff
constants as explicit parameters; Python floats are modelled as ℚ.
`backoff = min(BACKOFF_INITIAL_SECONDS * (2**attempt), BACKOFF_MAX_SECONDS)`;
a parsed `Retry-After` yields `min(max(retry_after, backoff), BACKOFF_MAX_SECONDS)`,
every other case falls through to `backoff`. -/
def retry_wait_seconds (initial maxBackoff : ℚ) (attempt : ℕ) (h : RetryAfterHeader) : ℚ :=
  let backoff := min (initial * 2 ^ attempt) maxBackoff
  match h with
  | .value retryAfter => min (max retryAfter backoff) maxBackoff
  | _ => backoff

/-- Default `NBA_API_BACKOFF_INITIAL_SECONDS` (2.0). -/
def BACKOFF_INITIAL_SECONDS : ℚ := 2

/-- Default `NBA_API_BACKOFF_MAX_SECONDS` (120.0). -/
def BACKOFF_MAX_SECONDS : ℚ := 120

/-- Model of `_retry_wait_seconds` at the default configuration. -/
def retry_wait_seconds_default (attempt : ℕ) (h : RetryAfterHeader) : ℚ :=
  retry_wait_seconds BACKOFF_INITIAL_SECONDS BACKOFF_MAX_SECONDS attempt h

/-- Python `\s` for the ASCII range: the whitespace characters. -/
def isSpaceChar (c : Char) : Bool :=
  c == ' ' || c == '\t' || c == '\n' || c == '\r' || c == '\x0b' || c == '\x0c'

/-- Python `\w` for the ASCII range: alphanumerics and underscore. -/
def isWordChar (c : Char) : Bool := c.isAlphanum || c == '_'

/-- ASCII model of `str.lower` on one character. -/
def toLowerChar (c : Char) : Char :=
  if 65 ≤ c.toNat ∧ c.toNat ≤ 90 then Char.ofNat (c.toNat + 32) else c

/-- Split a character list at whitespace; empty chunks mark leading,
trailing or repeated whitespace (dropped by the caller, which models
`strip()` + `re.sub(r"\s+", "_", ·)`). -/
def splitWS : List Char → List (List Char)
  | [] => [[]]
  | c :: rest =>
    match splitWS rest with
    | [] => [[c]]
    | t :: ts => if isSpaceChar c then [] :: t :: ts else (c :: t) :: ts

/-- Join chunks with single underscores (the replacement side of
`re.sub(r"\s+", "_", ·)`). -/
def joinSep : List (List Char) → List Char
  | [] => []
  | [t] => t
  | t :: ts => t ++ '_' :: joinSep ts

/-- Model of `to_snake_case` (utils.py): `re.sub(r"[^\w\s]", " ", s)`, then strip,
collapse whitespace runs to single underscores and lowercase, with the
empty result replaced by `"unknown"`. ASCII model of the Python regexes
and of `str.lower`. -/
def to_snake_case (s : String) : String :=
  let step1 := s.data.map (fun c => if isWordChar c || isSpaceChar c then c else ' ')
  let joined :=
    joinSep (((splitWS step1).filter (fun t => !t.isEmpty)).map (fun t => t.map toLowerChar))
  if joined.isEmpty then "unknown" else String.mk joined

/-- The decimal digit characters. -/
def digitChar : ℕ → Char
  | 0 => '0'
  | 1 => '1'
  | 2 => '2'
  | 3 => '3'
  | 4 => '4'
  | 5 => '5'
  | 6 => '6'
  | 7 => '7'
  | 8 => '8'
  | _ => '9'

/-- Fuel-driven decimal rendering; fuel `n + 1` always suffices. -/
def natStrAux : ℕ → ℕ → List Char
  | 0, _ => []
  | fuel + 1, n =>
    if n < 10 then [digitChar n] else natStrAux fuel (n / 10) ++ [digitChar (n % 10)]

/-- Model of Python `str(k)` for the dedupe suffixes. -/
def natStr (n : ℕ) : List Char := natStrAux (n + 1) n

/-- The dedupe loop of `normalize_columns` (utils.py): `seen` maps a
canonical name to its last-used suffix index; the first occurrence keeps
the bare name (`seen[name] = 0`), a repeat becomes
`f"{name}_{seen[name] + 1}"` after incrementing. -/
def dedupeAux : List String → (String → Option ℕ) → List String
  | [], _ => []
  | n :: rest, seen =>
    match seen n with
    | some k =>
      (n ++ "_" ++ String.mk (natStr (k + 1))) ::
        dedupeAux rest (fun m => if m = n then some (k + 1) else seen m)
    | none => n :: dedupeAux rest (fun m => if m = n then some 0 else seen m)

/-- The column-label transformation of `normalize_columns` (utils.py):
snake-case every label, then disambiguate duplicate canonical names with
`_1`, `_2`, … suffixes in first-seen order. -/
def normalizeLabels (labels : List String) : List String :=
  dedupeAux (labels.map to_snake_case) (fun _ => none)

/-- Model of `normalize_columns` (utils.py) on a frame: relabels the columns and
leaves the rows untouched. -/
def normalize_columns (df : Df) : Df := ⟨normalizeLabels df.cols, df.rows⟩

/-- Occurrences of a label in a label list. -/
def countStr (n : String) : List String → ℕ
  | [] => 0
  | x :: xs => (if x = n then 1 else 0) + countStr n xs

/-- The `seen` dictionary state after the dedupe loop has processed the
prefix `p`: absent names map to `none`, a seen name maps to its
occurrence count minus one. -/
def seenOf (p : List String) : String → Option ℕ :=
  fun n => if countStr n p = 0 then none else some (countStr n p - 1)

/-- The output label the dedupe loop emits for name `n` when the names
processed before it are `p`: bare on first occurrence, otherwise
suffixed with the number of prior occurrences. -/
def outLabel (p : List String) (n : String) : String :=
  if countStr n p = 0 then n else n ++ "_" ++ String.mk (natStr (countStr n p))

/-- An NBA stats JSON payload, as `resultset_to_df` (api.py) consumes it:
`resultSets` as a single object (headers + rowSet), `resultSets` as an
array of named sets, a single `resultSet` object, or neither key. -/
inductive Payload where
  | resultSetsObj (headers : List String) (rows : List (List Cell))
  | resultSetsArr (sets : List (String × List String × List (List Cell)))
  | resultSetObj (headers : List String) (rows : List (List Cell))
  | bare
deriving Repr, DecidableEq

/-- Model of `resultset_to_df` (api.py): parse a payload into a frame, selecting an
array result set by name with positional fallback; `none` models the
uncaught `IndexError` when the positional index is out of range. -/
def resultset_to_df (p : Payload) (name : Option String) (index : ℕ) : Option Df :=
  match p with
  | .resultSetsObj hs rs => some ⟨hs, rs⟩
  | .resultSetsArr sets =>
    match name with
    | some n =>
      match sets.find? (fun s => s.1 == n) with
      | some s => some ⟨s.2.1, s.2.2⟩
      | none => (sets[index]?).map (fun s => ⟨s.2.1, s.2.2⟩)
    | none => (sets[index]?).map (fun s => ⟨s.2.1, s.2.2⟩)
  | .resultSetObj hs rs => some ⟨hs, rs⟩
  | .bare => some Df.empty

/-- Pandas column assignment `df[c] = v` for a scalar `v`: overwrite an existing column in place or
append a new one, the value repeated on every row. -/
def Df.setColumn (df : Df) (c : String) (v : Cell) : Df :=
  match colIdx df.cols c with
  | some i => ⟨df.cols, df.rows.map (fun r => r.set i v)⟩
  | none => ⟨df.cols ++ [c], df.rows.map (fun r => r ++ [v])⟩

/-- Model of `FetchContext` (fetchers.py). -/
structure FetchContext where
  season : String
  season_label : String
  season_type : String
  limit : Option ℕ
  skip_lineups : Bool
deriving Repr, DecidableEq

/-- An exception escaping a parse step (e.g. `IndexError` from
`sets[index]`), re-raised to the enclosing task. -/
def liftParsed : Option Df → Except String Df
  | some d => .ok d
  | none => .error "IndexError"

/-- Model of `fetch_core` (fetchers.py): the three phase-1 tasks — team game logs,
player game logs, commonallplayers — are gathered by `asyncio.gather`
with no per-task exception handling, so any task's terminal failure
propagates out of the phase. Each `Except` argument is the outcome of
that task's `one(endpoint, params)` call (`.error` = exhausted retries);
successful payloads are parsed, normalized and tagged with the run
context exactly as the fetcher does. -/
def fetch_core (ctx : FetchContext) (team_p player_p common_p : Except String Payload) :
    Except String (Df × Df × Df) := do
  let tp ← team_p
  let pp ← player_p
  let cp ← common_p
  let team0 ← liftParsed (resultset_to_df tp none 0)
  let team_logs := if team0.isEmpty then team0 else
    (((normalize_columns team0).setColumn "season" (some ctx.season)).setColumn
      "season_label" (some ctx.season_label)).setColumn "season_type" (some ctx.season_type)
  let player0 ← liftParsed (resultset_to_df pp none 0)
  let player_logs := if player0.isEmpty then player0 else
    (((normalize_columns player0).setColumn "season" (some ctx.season)).setColumn
      "season_label" (some ctx.season_label)).setColumn "season_type" (some ctx.season_type)
  let common0 ← liftParsed (resultset_to_df cp (some "CommonAllPlayers") 0)
  let common := if common0.isEmpty then common0 else
    ((normalize_columns common0).setColumn "season" (some ctx.season)).setColumn
      "season_label" (some ctx.season_label)
  return (team_logs, player_logs, common)

/-- The `roster` inner task of `fetch_rosters_schedule` (fetchers.py):
its whole body sits in `try/except Exception`, so a terminal fetch
failure or parse error is caught at the task boundary and downgraded to
an empty frame. -/
def roster_task (ctx : FetchContext) (tid : Int) (abbr : String)
    (p : Except String Payload) : Df :=
  match p with
  | .error _ => Df.empty
  | .ok payload =>
    match resultset_to_df payload (some "CommonTeamRoster") 0 with
    | none => Df.empty
    | some df =>
      if df.isEmpty then df
      else
        ((((normalize_columns df).setColumn "team_id" (some (toString tid))).setColumn
          "team_abbreviation" (some abbr)).setColumn "season"
            (some ctx.season)).setColumn "season_label" (some ctx.season_label)

/-- Model of `pd.concat([d for d in dfs if not d.empty], ignore_index=True)` for
frames sharing one schema (as the per-team roster frames do); an
all-empty list yields the empty frame. -/
def concatNonEmpty (dfs : List Df) : Df :=
  match dfs.filter (fun d => !d.isEmpty) with
  | [] => Df.empty
  | d :: rest => ⟨d.cols, d.rows ++ (rest.map Df.rows).flatten⟩

/-- The roster fan-out of `fetch_rosters_schedule`: one task per
`(team_id, team_abbreviation, fetch outcome)` triple, results gathered
and concatenated. -/
def run_roster_tasks (ctx : FetchContext)
    (tasks : List (Int × String × Except String Payload)) : Df :=
  concatNonEmpty (tasks.map (fun t => roster_task ctx t.1 t.2.1 t.2.2))

/-- Model of `resolve_seasons` (utils.py): resolve CLI season inputs to an
inclusive ascending list of season years, or the `ValueError` raised when
the supplied range is inverted. Year strings are modelled by their parsed
integer values. -/
def resolve_seasons (season : Int) (start_season end_season : Option Int) :
    Except String (List Int) :=
  match start_season, end_season with
  | none, none => .ok [season]
  | _, _ =>
    let start := start_season.getD season
    let stop := end_season.getD season
    if start > stop then .error "start-season must be <= end-season"
    else .ok ((List.range (stop + 1 - start).toNat).map (fun (i : ℕ) => start + (i : Int)))

end NbaStats

namespace NbaStats

lemma getCell_nil (r : List Cell) (c : String) : getCell [] r c = none := rfl

lemma getCell_cons (x : String) (xs : List String) (y : Cell) (r : List Cell) (c : String) :
    getCell (x :: xs) (y :: r) c = if x = c then y else getCell xs r c := by
  unfold getCell
  have hstep : colIdx (x :: xs) c = if x = c then some 0 else (colIdx xs c).map (· + 1) := rfl
  rw [hstep]
  by_cases h : x = c
  · simp [h]
  · rw [if_neg h, if_neg h]
    cases hidx : colIdx xs c with
    | none => simp
    | some i => simp

lemma getCell_of_not_mem {cols : List String} {c : String} (h : c ∉ cols) (r : List Cell) :
    getCell cols r c = none := by
  induction cols generalizing r with
  | nil => rfl
  | cons x xs ih =>
    have hx : x ≠ c := fun hxc => h (hxc ▸ List.mem_cons_self x xs)
    cases r with
    | nil =>
      unfold getCell colIdx
      simp only [hx, if_false]
      cases colIdx xs c <;> simp
    | cons y ys =>
      rw [getCell_cons, if_neg hx]
      exact ih (fun hc => h (List.mem_cons_of_mem x hc)) ys

lemma getCell_map {cols : List String} {c : String} (h : c ∈ cols) (f : String → Cell) :
    getCell cols (cols.map f) c = f c := by
  induction cols with
  | nil => cases h
  | cons x xs ih =>
    rw [List.map_cons, getCell_cons]
    by_cases hx : x = c
    · simp [hx]
    · rw [if_neg hx]
      exact ih ((List.mem_cons.mp h).resolve_left (fun hc => hx hc.symm))

/-- C3: against an existing destination column list, alignment yields
exactly the destination's columns in the destination's order; destination
columns absent from the input are NULL in every aligned row; input columns
absent from the destination are dropped and recorded in the warned
`dropped_columns` list; and a write against an existing table never
changes the table's column set. -/
theorem C3_alignment_schema_authoritative (df : Df) (ecols : List String) :
    (align_df_to_existing_columns df ecols).cols = ecols ∧
    (∀ c, c ∈ ecols → c ∉ df.cols →
      ∀ r ∈ (align_df_to_existing_columns df ecols).rows, getCell ecols r c = none) ∧
    (∀ c, c ∈ df.cols → c ∉ ecols →
      c ∉ (align_df_to_existing_columns df ecols).cols ∧ c ∈ dropped_columns df ecols) ∧
    (∀ tbl s st, ∃ t', upsert_raw_table (some tbl) df s st = some t' ∧ t'.cols = tbl.cols) := by
  refine ⟨rfl, ?_, ?_, ?_⟩
  · intro c hc hnc r hr
    simp only [align_df_to_existing_columns, List.mem_map] at hr
    obtain ⟨r0, _, rfl⟩ := hr
    rw [getCell_map hc]
    exact getCell_of_not_mem hnc r0
  · intro c hcd hce
    refine ⟨hce, ?_⟩
    simp [dropped_columns, List.mem_filter, hcd, hce]
  · intro tbl s st
    unfold upsert_raw_table
    by_cases he : df.isEmpty = true
    · simp only [he, if_true]
      exact ⟨tbl, rfl, rfl⟩
    · simp only [he, if_false]
      exact ⟨_, rfl, rfl⟩

/-- Witness for C3 at a concrete input: incoming columns `{a,b,d}` against
destination `{a,b,c}` — `c` is filled with NULL, `d` is dropped and warned
about, and the destination schema survives the write. -/
theorem C3_alignment_schema_authoritative_witness :
    (align_df_to_existing_columns ⟨["a", "b", "d"], [[some "1", some "2", some "4"]]⟩
        ["a", "b", "c"]).cols = ["a", "b", "c"] ∧
    getCell ["a", "b", "c"] [some "1", some "2", none] "c" = none ∧
    "d" ∈ dropped_columns ⟨["a", "b", "d"], [[some "1", some "2", some "4"]]⟩ ["a", "b", "c"] ∧
    (∃ t', upsert_raw_table (some ⟨["a", "b", "c"], []⟩)
        ⟨["a", "b", "d"], [[some "1", some "2", some "4"]]⟩ "2026" "Regular Season" = some t' ∧
        t'.cols = ["a", "b", "c"]) := by
  obtain ⟨h1, h2, h3, h4⟩ :=
    C3_alignment_schema_authoritative ⟨["a", "b", "d"], [[some "1", some "2", some "4"]]⟩
      ["a", "b", "c"]
  exact ⟨h1, h2 "c" (by decide) (by decide) [some "1", some "2", none] (by decide),
    (h3 "d" (by decide) (by decide)).2, h4 ⟨["a", "b", "c"], []⟩ "2026" "Regular Season"⟩

/-- C8: persisting an empty row set is a silent no-op — the destination
state is returned entirely unchanged (no delete, no insert). -/
theorem C8_empty_rowset_is_noop (t : Option Df) (df : Df) (s st : String)
    (h : df.isEmpty = true) : upsert_raw_table t df s st = t := by
  unfold upsert_raw_table
  simp [h]

lemma upsert_existing_both (tbl df : Df) (s st : String) (hne : df.isEmpty = false)
    (hs : "season" ∈ tbl.cols) (hst : "season_type" ∈ tbl.cols) :
    upsert_raw_table (some tbl) df s st =
      some ⟨tbl.cols,
        tbl.rows.filter (fun r => !rowMatchesKey tbl.cols r s st) ++
          (align_df_to_existing_columns df tbl.cols).rows⟩ := by
  unfold upsert_raw_table
  simp [hne, hs, hst]

lemma upsert_existing_noseason (tbl df : Df) (s st : String) (hne : df.isEmpty = false)
    (hs : "season" ∉ tbl.cols) :
    upsert_raw_table (some tbl) df s st =
      some ⟨tbl.cols, tbl.rows ++ (align_df_to_existing_columns df tbl.cols).rows⟩ := by
  unfold upsert_raw_table
  simp [hne, hs]

lemma countRow_append (r : List Cell) (l m : List (List Cell)) :
    countRow r (l ++ m) = countRow r l + countRow r m := by
  induction l with
  | nil => simp [countRow]
  | cons x xs ih => simp [countRow, ih]; omega

lemma countRow_filter (r : List Cell) (l : List (List Cell)) (p : List Cell → Bool) :
    countRow r (l.filter p) = if p r = true then countRow r l else 0 := by
  induction l with
  | nil => simp [countRow]
  | cons x xs ih =>
    rw [List.filter_cons]
    by_cases hpx : p x = true
    · by_cases hxr : x = r
      · subst hxr
        simp [hpx, countRow, ih]
      · simp [hpx, countRow, hxr, ih]
    · by_cases hxr : x = r
      · subst hxr
        simp only [Bool.not_eq_true] at hpx
        simp [hpx, countRow, ih]
      · simp [hpx, countRow, hxr, ih]

/-- C1 (amended): for an existing destination with both `season` and
`season_type` columns, one write deletes exactly the partition-key rows
and inserts the aligned rows (row-count characterization); a second
identical write leaves the partition's rows unchanged; and when every
incoming row carries the write's partition key in its own `season` and
`season_type` cells (as the loader's tagging guarantees), the second write
leaves the whole table unchanged. -/
theorem C1_upsert_partition_overwrite (tbl df : Df) (s st : String)
    (hne : df.isEmpty = false) (hs : "season" ∈ tbl.cols) (hst : "season_type" ∈ tbl.cols) :
    ∃ t1 t2,
      upsert_raw_table (some tbl) df s st = some t1 ∧
      upsert_raw_table (some t1) df s st = some t2 ∧
      (∀ r : List Cell, countRow r t1.rows =
        (if rowMatchesKey tbl.cols r s st then 0 else countRow r tbl.rows) +
          countRow r (align_df_to_existing_columns df tbl.cols).rows) ∧
      partitionRows t2 s st = partitionRows t1 s st ∧
      ((∀ r ∈ df.rows, getCell df.cols r "season" = some s ∧
          getCell df.cols r "season_type" = some st) → t2 = t1) := by
  have h1 := upsert_existing_both tbl df s st hne hs hst
  set A := (align_df_to_existing_columns df tbl.cols).rows with hA
  set kept := tbl.rows.filter (fun r => !rowMatchesKey tbl.cols r s st) with hkept
  refine ⟨⟨tbl.cols, kept ++ A⟩, _, h1, upsert_existing_both ⟨tbl.cols, kept ++ A⟩ df s st hne hs hst, ?_, ?_, ?_⟩
  · intro r
    show countRow r (kept ++ A) = _
    rw [countRow_append, hkept, countRow_filter]
    by_cases hm : rowMatchesKey tbl.cols r s st = true
    · simp [hm]
    · simp only [Bool.not_eq_true] at *
      simp [hm]
  · show ((kept ++ A).filter (fun r => !rowMatchesKey tbl.cols r s st) ++ A).filter
        (fun r => rowMatchesKey tbl.cols r s st) =
      (kept ++ A).filter (fun r => rowMatchesKey tbl.cols r s st)
    rw [List.filter_append, List.filter_filter, List.filter_append]
    simp [hkept, List.filter_filter]
  · intro htag
    have hAfix : A.filter (fun r => !rowMatchesKey tbl.cols r s st) = [] := by
      rw [List.filter_eq_nil_iff]
      intro r' hr'
      rw [hA] at hr'
      simp only [align_df_to_existing_columns, List.mem_map] at hr'
      obtain ⟨r0, hr0, rfl⟩ := hr'
      have hmatch : rowMatchesKey tbl.cols (tbl.cols.map (fun c => getCell df.cols r0 c)) s st
          = true := by
        unfold rowMatchesKey
        rw [getCell_map hs, getCell_map hst, (htag r0 hr0).1, (htag r0 hr0).2]
        simp
      simp [hmatch]
    show Df.mk tbl.cols ((kept ++ A).filter (fun r => !rowMatchesKey tbl.cols r s st) ++ A) =
      Df.mk tbl.cols (kept ++ A)
    rw [List.filter_append, hAfix, List.append_nil, hkept, List.filter_filter]
    simp

/-- C1 counterexample: writing the same non-empty DataFrame twice with
`upsert_raw_table` is NOT always the same as writing it once — a row whose
own `season` tag differs from the write's partition key survives the
delete and is inserted again by the second write. -/
theorem C1_upsert_twice_ne_once_counterexample :
    upsert_raw_table
        (upsert_raw_table (some ⟨["season", "season_type"], []⟩)
          ⟨["season", "season_type"], [[some "2025", some "Regular Season"]]⟩
          "2026" "Regular Season")
        ⟨["season", "season_type"], [[some "2025", some "Regular Season"]]⟩
        "2026" "Regular Season" ≠
      upsert_raw_table (some ⟨["season", "season_type"], []⟩)
        ⟨["season", "season_type"], [[some "2025", some "Regular Season"]]⟩
        "2026" "Regular Season" := by decide

/-- Witness for C1 at a loader-shaped input: a 2026 Regular Season write
onto a table holding a 2025 row. -/
theorem C1_upsert_partition_overwrite_witness :
    dfC1.isEmpty = false ∧ "season" ∈ tblC1.cols ∧ "season_type" ∈ tblC1.cols ∧
    (∃ t1 t2,
      upsert_raw_table (some tblC1) dfC1 "2026" "Regular Season" = some t1 ∧
      upsert_raw_table (some t1) dfC1 "2026" "Regular Season" = some t2 ∧
      (∀ r : List Cell, countRow r t1.rows =
        (if rowMatchesKey tblC1.cols r "2026" "Regular Season" then 0
          else countRow r tblC1.rows) +
          countRow r (align_df_to_existing_columns dfC1 tblC1.cols).rows) ∧
      partitionRows t2 "2026" "Regular Season" = partitionRows t1 "2026" "Regular Season" ∧
      ((∀ r ∈ dfC1.rows, getCell dfC1.cols r "season" = some "2026" ∧
          getCell dfC1.cols r "season_type" = some "Regular Season") → t2 = t1)) :=
  ⟨by decide, by decide, by decide,
    C1_upsert_partition_overwrite tblC1 dfC1 "2026" "Regular Season"
      (by decide) (by decide) (by decide)⟩

/-- C9: when the destination has neither a `season` nor a `season_type`
column, no delete happens and the aligned rows are appended, so an
identical second write appends them a second time: the table grows by the
frame's row count per write instead of staying unchanged. -/
theorem C9_no_partition_columns_appends (tbl df : Df) (s st : String)
    (hne : df.isEmpty = false) (hs : "season" ∉ tbl.cols) (_hst : "season_type" ∉ tbl.cols) :
    ∃ t1 t2,
      upsert_raw_table (some tbl) df s st = some t1 ∧
      upsert_raw_table (some t1) df s st = some t2 ∧
      t1.rows = tbl.rows ++ (align_df_to_existing_columns df tbl.cols).rows ∧
      t2.rows = (tbl.rows ++ (align_df_to_existing_columns df tbl.cols).rows) ++
        (align_df_to_existing_columns df tbl.cols).rows ∧
      t2.rows.length = tbl.rows.length + 2 * df.rows.length ∧
      t2 ≠ t1 := by
  have hpos : 0 < df.rows.length := by
    cases hrows : df.rows with
    | nil =>
      exfalso
      unfold Df.isEmpty at hne
      rw [hrows] at hne
      simp at hne
    | cons a l => simp [hrows]
  have hAlen : (align_df_to_existing_columns df tbl.cols).rows.length = df.rows.length :=
    List.length_map _ _
  have h1 := upsert_existing_noseason tbl df s st hne hs
  refine ⟨⟨tbl.cols, tbl.rows ++ (align_df_to_existing_columns df tbl.cols).rows⟩, _, h1,
    upsert_existing_noseason _ df s st hne hs, rfl, rfl, ?_, ?_⟩
  · simp only [List.length_append, hAlen]
    ring
  · intro heq
    have hlen := congrArg (fun t => t.rows.length) heq
    simp only [List.length_append, hAlen] at hlen
    omega

/-- Witness for C9: a one-row table with only column `x` doubles the
appended content when the same one-row frame is written twice. -/
theorem C9_no_partition_columns_appends_witness :
    dfC9.isEmpty = false ∧ "season" ∉ tblC9.cols ∧ "season_type" ∉ tblC9.cols ∧
    (∃ t1 t2,
      upsert_raw_table (some tblC9) dfC9 "2026" "Regular Season" = some t1 ∧
      upsert_raw_table (some t1) dfC9 "2026" "Regular Season" = some t2 ∧
      t1.rows = tblC9.rows ++ (align_df_to_existing_columns dfC9 tblC9.cols).rows ∧
      t2.rows = (tblC9.rows ++ (align_df_to_existing_columns dfC9 tblC9.cols).rows) ++
        (align_df_to_existing_columns dfC9 tblC9.cols).rows ∧
      t2.rows.length = tblC9.rows.length + 2 * dfC9.rows.length ∧
      t2 ≠ t1) :=
  ⟨by decide, by decide, by decide,
    C9_no_partition_columns_appends tblC9 dfC9 "2026" "Regular Season"
      (by decide) (by decide) (by decide)⟩

/-- C4: a parseable numeric `Retry-After` makes the wait
`min(max(retryAfter, computedBackoff), maxBackoff)`; an absent, empty or
unparsable header (and a missing response) leaves the computed backoff
unchanged. At the defaults, `Retry-After: 30` against a computed backoff
of 4 (attempt 1) waits `min(30, 120) = 30`, and `Retry-After: "banana"`
waits the computed backoff 4. -/
theorem C4_retry_after_wait (initial maxB : ℚ) (k : ℕ) (q : ℚ) :
    retry_wait_seconds initial maxB k (.value q) =
      min (max q (min (initial * 2 ^ k) maxB)) maxB ∧
    retry_wait_seconds initial maxB k .absent = min (initial * 2 ^ k) maxB ∧
    retry_wait_seconds initial maxB k .unparsable = min (initial * 2 ^ k) maxB ∧
    retry_wait_seconds initial maxB k .noResponse = min (initial * 2 ^ k) maxB ∧
    retry_wait_seconds_default 1 (.value 30) = min 30 BACKOFF_MAX_SECONDS ∧
    retry_wait_seconds_default 1 (.value 30) = 30 ∧
    retry_wait_seconds_default 1 .unparsable = 4 := by
  refine ⟨rfl, rfl, rfl, rfl, ?_, ?_, ?_⟩ <;>
    norm_num [retry_wait_seconds_default, retry_wait_seconds,
      BACKOFF_INITIAL_SECONDS, BACKOFF_MAX_SECONDS]

/-- C7: without a `Retry-After` header the computed backoff wait is
non-decreasing in the attempt index and never exceeds the configured
maximum backoff. -/
theorem C7_backoff_monotone_capped (initial maxB : ℚ) (j k : ℕ)
    (hpos : 0 < initial) (_hle : initial ≤ maxB) (hjk : j ≤ k) :
    retry_wait_seconds initial maxB j .absent ≤ retry_wait_seconds initial maxB k .absent ∧
    retry_wait_seconds initial maxB k .absent ≤ maxB := by
  constructor
  · show min (initial * 2 ^ j) maxB ≤ min (initial * 2 ^ k) maxB
    refine min_le_min ?_ le_rfl
    refine mul_le_mul_of_nonneg_left ?_ hpos.le
    exact pow_le_pow_right₀ (by norm_num) hjk
  · exact min_le_right _ _

/-- Witness for C7 at the default configuration, attempts 1 ≤ 3. -/
theorem C7_backoff_monotone_capped_witness :
    (0 : ℚ) < 2 ∧ (2 : ℚ) ≤ 120 ∧ (1 : ℕ) ≤ 3 ∧
    (retry_wait_seconds 2 120 1 .absent ≤ retry_wait_seconds 2 120 3 .absent ∧
      retry_wait_seconds 2 120 3 .absent ≤ 120) :=
  ⟨by norm_num, by norm_num, by norm_num,
    C7_backoff_monotone_capped 2 120 1 3 (by norm_num) (by norm_num) (by norm_num)⟩

/-- C10: with neither range bound the default season is returned alone; a
missing bound is filled in with the default; a supplied `(start, end)`
range errors exactly when start > end, and otherwise yields the strictly
ascending inclusive list of years from start to end. -/
theorem C10_resolve_seasons_spec (s : Int) :
    resolve_seasons s none none = .ok [s] ∧
    (∀ a, resolve_seasons s (some a) none = resolve_seasons s (some a) (some s)) ∧
    (∀ b, resolve_seasons s none (some b) = resolve_seasons s (some s) (some b)) ∧
    (∀ a b, (∃ e, resolve_seasons s (some a) (some b) = .error e) ↔ b < a) ∧
    (∀ a b, a ≤ b → ∃ l, resolve_seasons s (some a) (some b) = .ok l ∧
      l.Pairwise (· < ·) ∧ (∀ y, y ∈ l ↔ a ≤ y ∧ y ≤ b)) := by
  refine ⟨rfl, fun a => rfl, fun b => rfl, ?_, ?_⟩
  · intro a b
    constructor
    · rintro ⟨e, he⟩
      by_cases h : a > b
      · exact h
      · rw [show resolve_seasons s (some a) (some b) =
            (if a > b then .error "start-season must be <= end-season"
              else .ok ((List.range (b + 1 - a).toNat).map (fun (i : ℕ) => a + (i : Int)))) from rfl,
          if_neg h] at he
        cases he
    · intro h
      exact ⟨_, by rw [show resolve_seasons s (some a) (some b) =
          (if a > b then .error "start-season must be <= end-season"
            else .ok ((List.range (b + 1 - a).toNat).map (fun (i : ℕ) => a + (i : Int)))) from rfl,
        if_pos h]⟩
  · intro a b hab
    refine ⟨(List.range (b + 1 - a).toNat).map (fun (i : ℕ) => a + (i : Int)), ?_, ?_, ?_⟩
    · rw [show resolve_seasons s (some a) (some b) =
          (if a > b then .error "start-season must be <= end-season"
            else .ok ((List.range (b + 1 - a).toNat).map (fun (i : ℕ) => a + (i : Int)))) from rfl,
        if_neg (not_lt.mpr hab)]
    · exact List.Pairwise.map _ (fun x y h => by omega) (List.pairwise_lt_range _)
    · intro y
      simp only [List.mem_map, List.mem_range]
      constructor
      · rintro ⟨i, hi, rfl⟩
        omega
      · rintro ⟨h1, h2⟩
        exact ⟨(y - a).toNat, by omega, by omega⟩

/-- Witness for C10: default 2026; filling a missing end bound;
an inverted range (3, 1) errors; range (1997, 1999) enumerates
ascending inclusive years. -/
theorem C10_resolve_seasons_spec_witness :
    resolve_seasons 2026 none none = .ok [2026] ∧
    resolve_seasons 2026 (some 1997) none = resolve_seasons 2026 (some 1997) (some 2026) ∧
    ((∃ e, resolve_seasons 2026 (some 3) (some 1) = .error e) ↔ (1 : Int) < 3) ∧
    (∃ l, resolve_seasons 2026 (some 1997) (some 1999) = .ok l ∧
      l.Pairwise (· < ·) ∧ (∀ y, y ∈ l ↔ 1997 ≤ y ∧ y ≤ 1999)) := by
  obtain ⟨h1, h2, _h3, h4, h5⟩ := C10_resolve_seasons_spec 2026
  exact ⟨h1, h2 1997, h4 3 1, h5 1997 1999 (by norm_num)⟩

lemma word_not_space {c : Char} (h : isWordChar c = true) : isSpaceChar c = false := by
  by_contra hs
  rw [Bool.not_eq_false] at hs
  unfold isSpaceChar at hs
  simp only [Bool.or_eq_true, beq_iff_eq] at hs
  rcases hs with ((((rfl | rfl) | rfl) | rfl) | rfl) | rfl <;> exact absurd h (by decide)

lemma toLowerChar_canon {c : Char} (h : isWordChar c = true) :
    isWordChar (toLowerChar c) = true ∧ isSpaceChar (toLowerChar c) = false ∧
      toLowerChar (toLowerChar c) = toLowerChar c := by
  by_cases hb : 65 ≤ c.toNat ∧ c.toNat ≤ 90
  · have he : toLowerChar c = Char.ofNat (c.toNat + 32) := by
      simp only [toLowerChar, if_pos hb]
    rw [he]
    obtain ⟨h1, h2⟩ := hb
    generalize c.toNat = n at h1 h2
    interval_cases n <;> exact ⟨by decide, by decide, by decide⟩
  · have he : toLowerChar c = c := by
      simp only [toLowerChar, if_neg hb]
    rw [he]
    exact ⟨h, word_not_space h, he⟩

lemma splitWS_ne_nil (l : List Char) : splitWS l ≠ [] := by
  cases l with
  | nil => simp [splitWS]
  | cons c rest =>
    unfold splitWS
    cases h : splitWS rest with
    | nil => simp
    | cons t ts => by_cases hc : isSpaceChar c <;> simp [hc]

lemma mem_splitWS : ∀ (l : List Char) (t : List Char), t ∈ splitWS l →
    ∀ c ∈ t, c ∈ l ∧ isSpaceChar c = false := by
  intro l
  induction l with
  | nil =>
    intro t ht c hc
    simp [splitWS] at ht
    subst ht
    cases hc
  | cons a rest ih =>
    intro t ht c hc
    unfold splitWS at ht
    cases hsp : splitWS rest with
    | nil => exact absurd hsp (splitWS_ne_nil rest)
    | cons t0 ts0 =>
      rw [hsp] at ht
      have ht2 : t ∈ (if isSpaceChar a = true then [] :: t0 :: ts0 else (a :: t0) :: ts0) := ht
      by_cases ha : isSpaceChar a = true
      · rw [if_pos ha] at ht2
        rcases List.mem_cons.mp ht2 with rfl | ht'
        · exact absurd hc (List.not_mem_nil c)
        · have hmem : t ∈ splitWS rest := by rw [hsp]; exact ht'
          have := ih t hmem c hc
          exact ⟨List.mem_cons_of_mem a this.1, this.2⟩
      · rw [if_neg ha] at ht2
        have ha' : isSpaceChar a = false := Bool.eq_false_iff.mpr ha
        rcases List.mem_cons.mp ht2 with rfl | ht'
        · rcases List.mem_cons.mp hc with rfl | hc'
          · exact ⟨List.mem_cons_self _ _, ha'⟩
          · have ht0 : t0 ∈ splitWS rest := by rw [hsp]; exact List.mem_cons_self _ _
            have := ih t0 ht0 c hc'
            exact ⟨List.mem_cons_of_mem a this.1, this.2⟩
        · have hmem : t ∈ splitWS rest := by rw [hsp]; exact List.mem_cons_of_mem t0 ht'
          have := ih t hmem c hc
          exact ⟨List.mem_cons_of_mem a this.1, this.2⟩

lemma splitWS_no_space : ∀ (l : List Char), (∀ c ∈ l, isSpaceChar c = false) → l ≠ [] →
    splitWS l = [l] := by
  intro l
  induction l with
  | nil => intro _ hne; exact absurd rfl hne
  | cons a rest ih =>
    intro h _
    have ha : isSpaceChar a = false := h a (List.mem_cons_self _ _)
    cases rest with
    | nil => simp [splitWS, ha]
    | cons b rest2 =>
      have hr := ih (fun c hc => h c (List.mem_cons_of_mem a hc)) (by simp)
      unfold splitWS
      rw [hr]
      simp [ha]

lemma mem_joinSep : ∀ (ts : List (List Char)) (c : Char), c ∈ joinSep ts →
    c = '_' ∨ ∃ t ∈ ts, c ∈ t := by
  intro ts
  induction ts with
  | nil =>
    intro c hc
    simp [joinSep] at hc
  | cons t rest ih =>
    intro c hc
    cases rest with
    | nil =>
      right
      exact ⟨t, List.mem_cons_self _ _, by simpa [joinSep] using hc⟩
    | cons t2 ts2 =>
      rw [show joinSep (t :: t2 :: ts2) = t ++ '_' :: joinSep (t2 :: ts2) from rfl] at hc
      rcases List.mem_append.mp hc with h1 | h2
      · right
        exact ⟨t, List.mem_cons_self _ _, h1⟩
      · rcases List.mem_cons.mp h2 with rfl | h3
        · left; rfl
        · rcases ih c h3 with h | ⟨t', ht', hc'⟩
          · left; exact h
          · right; exact ⟨t', List.mem_cons_of_mem t ht', hc'⟩

lemma to_snake_case_chars (s : String) :
    ∀ c ∈ (to_snake_case s).data,
      isWordChar c = true ∧ isSpaceChar c = false ∧ toLowerChar c = c := by
  intro c hc
  simp only [to_snake_case] at hc
  split at hc
  · have hu : ("unknown").data = ['u', 'n', 'k', 'n', 'o', 'w', 'n'] := rfl
    rw [hu] at hc
    fin_cases hc <;> exact ⟨by decide, by decide, by decide⟩
  · have hc2 : c ∈ joinSep
        (((splitWS (s.data.map (fun c => if isWordChar c || isSpaceChar c then c else ' '))).filter
          (fun t => !t.isEmpty)).map (fun t => t.map toLowerChar)) := hc
    rcases mem_joinSep _ _ hc2 with rfl | ⟨t', ht', hc'⟩
    · exact ⟨by decide, by decide, by decide⟩
    · rcases List.mem_map.mp ht' with ⟨t, ht, rfl⟩
      rcases List.mem_map.mp hc' with ⟨d, hd, rfl⟩
      have htok := List.mem_filter.mp ht
      have hds := mem_splitWS _ t htok.1 d hd
      rcases List.mem_map.mp hds.1 with ⟨e, _, hde⟩
      have hword : isWordChar d = true := by
        by_cases hcond : (isWordChar e || isSpaceChar e) = true
        · rw [if_pos hcond] at hde
          subst hde
          have hcond2 : isWordChar e = true ∨ isSpaceChar e = true := by simpa using hcond
          rcases hcond2 with h | h
          · exact h
          · exact absurd h (by simp [hds.2])
        · rw [if_neg hcond] at hde
          subst hde
          exact absurd hds.2 (by decide)
      exact toLowerChar_canon hword

lemma to_snake_case_ne_empty (s : String) : to_snake_case s ≠ "" := by
  simp only [to_snake_case]
  split
  · decide
  · next hj =>
    intro h
    apply hj
    have := congrArg String.data h
    rw [show (("") : String).data = [] from rfl] at this
    rw [show ∀ l : List Char, (String.mk l).data = l from fun _ => rfl] at this
    rw [this]
    rfl

lemma map_id_of_fixed {α : Type} (f : α → α) :
    ∀ (l : List α), (∀ a ∈ l, f a = a) → l.map f = l := by
  intro l
  induction l with
  | nil => intro _; rfl
  | cons a rest ih =>
    intro h
    rw [List.map_cons, h a (List.mem_cons_self _ _),
      ih (fun x hx => h x (List.mem_cons_of_mem a hx))]

lemma to_snake_case_fixed (s : String) (hne : s ≠ "")
    (h : ∀ c ∈ s.data, isWordChar c = true ∧ isSpaceChar c = false ∧ toLowerChar c = c) :
    to_snake_case s = s := by
  obtain ⟨l⟩ := s
  have hl : l ≠ [] := by
    intro h0
    exact hne (by rw [h0])
  have hdata : (String.mk l).data = l := rfl
  rw [hdata] at h
  have hstep1 : l.map (fun c => if isWordChar c || isSpaceChar c then c else ' ') = l :=
    map_id_of_fixed _ l (fun c hc => by simp [(h c hc).1])
  have hsplit : splitWS l = [l] :=
    splitWS_no_space l (fun c hc => word_not_space (h c hc).1) hl
  have hlower : l.map toLowerChar = l := map_id_of_fixed _ l (fun c hc => (h c hc).2.2)
  have hempty : l.isEmpty = false := by
    cases l with
    | nil => exact absurd rfl hl
    | cons a t => rfl
  simp only [to_snake_case, hdata, hstep1, hsplit]
  rw [show ([l].filter (fun t => !t.isEmpty)) = [l] from by simp [hempty]]
  rw [List.map_singleton, hlower]
  rw [show joinSep [l] = l from rfl]
  rw [if_neg (by simp [hempty])]

lemma to_snake_case_idem (s : String) :
    to_snake_case (to_snake_case s) = to_snake_case s :=
  to_snake_case_fixed _ (to_snake_case_ne_empty s) (to_snake_case_chars s)

lemma digitChar_canon (d : ℕ) :
    isWordChar (digitChar d) = true ∧ isSpaceChar (digitChar d) = false ∧
      toLowerChar (digitChar d) = digitChar d := by
  rcases d with _ | _ | _ | _ | _ | _ | _ | _ | _ | d <;> exact ⟨rfl, rfl, rfl⟩

lemma natStrAux_canon : ∀ (fuel n : ℕ), ∀ c ∈ natStrAux fuel n,
    isWordChar c = true ∧ isSpaceChar c = false ∧ toLowerChar c = c := by
  intro fuel
  induction fuel with
  | zero => intro n c hc; cases hc
  | succ f ih =>
    intro n c hc
    unfold natStrAux at hc
    by_cases h10 : n < 10
    · rw [if_pos h10] at hc
      rw [List.mem_singleton] at hc
      subst hc
      exact digitChar_canon n
    · rw [if_neg h10] at hc
      rcases List.mem_append.mp hc with h | h
      · exact ih _ c h
      · rw [List.mem_singleton] at h
        subst h
        exact digitChar_canon _

lemma suffixed_chars (b : String) (k : ℕ)
    (hb : ∀ c ∈ b.data, isWordChar c = true ∧ isSpaceChar c = false ∧ toLowerChar c = c) :
    ∀ c ∈ (b ++ "_" ++ String.mk (natStr k)).data,
      isWordChar c = true ∧ isSpaceChar c = false ∧ toLowerChar c = c := by
  intro c hc
  rw [String.data_append, String.data_append] at hc
  rcases List.mem_append.mp hc with h | h
  · rcases List.mem_append.mp h with h1 | h1
    · exact hb c h1
    · rw [show (("_") : String).data = ['_'] from rfl, List.mem_singleton] at h1
      subst h1
      exact ⟨by decide, by decide, by decide⟩
  · exact natStrAux_canon _ _ c h

lemma suffixed_ne_empty (b x : String) : (b ++ "_" ++ x) ≠ "" := by
  intro h
  have := congrArg String.data h
  rw [String.data_append, String.data_append] at this
  simp [show (("_") : String).data = ['_'] from rfl] at this

lemma mem_dedupeAux : ∀ (l : List String) (seen : String → Option ℕ) (n : String),
    n ∈ dedupeAux l seen →
    n ∈ l ∨ ∃ b k, b ∈ l ∧ n = b ++ "_" ++ String.mk (natStr k) := by
  intro l
  induction l with
  | nil => intro seen n hn; cases hn
  | cons a rest ih =>
    intro seen n hn
    unfold dedupeAux at hn
    cases hs : seen a with
    | some k =>
      rw [hs] at hn
      rcases List.mem_cons.mp hn with rfl | h
      · right; exact ⟨a, k + 1, List.mem_cons_self _ _, rfl⟩
      · rcases ih _ n h with h1 | ⟨b, k', hb, hsuf⟩
        · left; exact List.mem_cons_of_mem _ h1
        · right; exact ⟨b, k', List.mem_cons_of_mem _ hb, hsuf⟩
    | none =>
      rw [hs] at hn
      rcases List.mem_cons.mp hn with rfl | h
      · left; exact List.mem_cons_self _ _
      · rcases ih _ n h with h1 | ⟨b, k', hb, hsuf⟩
        · left; exact List.mem_cons_of_mem _ h1
        · right; exact ⟨b, k', List.mem_cons_of_mem _ hb, hsuf⟩

lemma dedupeAux_fresh : ∀ (l : List String) (seen : String → Option ℕ),
    l.Nodup → (∀ n ∈ l, seen n = none) → dedupeAux l seen = l := by
  intro l
  induction l with
  | nil => intro seen _ _; rfl
  | cons a rest ih =>
    intro seen hnd hseen
    unfold dedupeAux
    rw [hseen a (List.mem_cons_self _ _)]
    show a :: dedupeAux rest (fun m => if m = a then some 0 else seen m) = a :: rest
    congr 1
    apply ih
    · exact (List.nodup_cons.mp hnd).2
    · intro m hm
      have hma : m ≠ a := fun h => (List.nodup_cons.mp hnd).1 (h ▸ hm)
      rw [if_neg hma]
      exact hseen m (List.mem_cons_of_mem _ hm)

/-- C5 counterexample: normalization is NOT idempotent — the dedupe
suffix `pts_1` generated for the duplicate `PTS` collides with the raw
label `pts_1`, so a second normalization pass renames it again. -/
theorem C5_normalize_not_idempotent_counterexample :
    normalizeLabels (normalizeLabels ["Pts", "PTS", "pts_1"]) ≠
      normalizeLabels ["Pts", "PTS", "pts_1"] := by decide

/-- C5 (amended): normalization is pure and deterministic, and applying it
twice yields the same output as applying it once whenever the single
application's output labels are pairwise distinct (i.e. no generated
dedupe suffix collides with another canonical label); an output collision
such as `["Pts","PTS","pts_1"] ↦ ["pts","pts_1","pts_1"]` breaks
idempotence. -/
theorem C5_normalize_idempotent_on_nodup (ls : List String)
    (hnd : (normalizeLabels ls).Nodup) :
    normalizeLabels (normalizeLabels ls) = normalizeLabels ls := by
  have hfix : ∀ n ∈ normalizeLabels ls, to_snake_case n = n := by
    intro n hn
    rcases mem_dedupeAux _ _ n hn with h | ⟨b, k, hb, rfl⟩
    · rcases List.mem_map.mp h with ⟨x, _, rfl⟩
      exact to_snake_case_idem x
    · rcases List.mem_map.mp hb with ⟨x, _, rfl⟩
      exact to_snake_case_fixed _ (suffixed_ne_empty _ _)
        (suffixed_chars _ _ (to_snake_case_chars x))
  show dedupeAux ((normalizeLabels ls).map to_snake_case) (fun _ => none) = normalizeLabels ls
  rw [map_id_of_fixed _ _ hfix]
  exact dedupeAux_fresh _ _ hnd (fun _ _ => rfl)

/-- Witness for C5 (amended) at `["Pts", "PTS"]`, whose normalization
`["pts", "pts_1"]` is duplicate-free. -/
theorem C5_normalize_idempotent_on_nodup_witness :
    (normalizeLabels ["Pts", "PTS"]).Nodup ∧
    normalizeLabels (normalizeLabels ["Pts", "PTS"]) = normalizeLabels ["Pts", "PTS"] :=
  ⟨by decide, C5_normalize_idempotent_on_nodup ["Pts", "PTS"] (by decide)⟩

lemma countStr_append (n : String) (p q : List String) :
    countStr n (p ++ q) = countStr n p + countStr n q := by
  induction p with
  | nil => simp [countStr]
  | cons x xs ih => simp [countStr, ih]; omega

lemma dedupeAux_length : ∀ (l : List String) (seen : String → Option ℕ),
    (dedupeAux l seen).length = l.length := by
  intro l
  induction l with
  | nil => intro seen; rfl
  | cons a rest ih =>
    intro seen
    unfold dedupeAux
    cases seen a <;> simp [ih]

lemma seenOf_update_none (p : List String) (a : String) (h : countStr a p = 0) :
    (fun m => if m = a then some 0 else seenOf p m) = seenOf (p ++ [a]) := by
  funext m
  by_cases hma : m = a
  · subst hma
    rw [if_pos rfl]
    unfold seenOf
    rw [countStr_append, h, show countStr m [m] = 1 from by simp [countStr]]
    rfl
  · have h0 : countStr m [a] = 0 := by
      simp only [countStr]
      rw [if_neg (fun hh => hma hh.symm)]
    rw [if_neg hma]
    unfold seenOf
    rw [countStr_append, h0, Nat.add_zero]

lemma seenOf_update_some (p : List String) (a : String) (k : ℕ) (h : countStr a p = k + 1) :
    (fun m => if m = a then some (k + 1) else seenOf p m) = seenOf (p ++ [a]) := by
  funext m
  by_cases hma : m = a
  · subst hma
    rw [if_pos rfl]
    unfold seenOf
    rw [countStr_append, h, show countStr m [m] = 1 from by simp [countStr]]
    rw [if_neg (by omega)]
    rfl
  · have h0 : countStr m [a] = 0 := by
      simp only [countStr]
      rw [if_neg (fun hh => hma hh.symm)]
    rw [if_neg hma]
    unfold seenOf
    rw [countStr_append, h0, Nat.add_zero]

lemma dedupeAux_getD : ∀ (l : List String) (p : List String) (i : ℕ), i < l.length →
    (dedupeAux l (seenOf p)).getD i "" = outLabel (p ++ l.take i) (l.getD i "") := by
  intro l
  induction l with
  | nil => intro p i hi; cases hi
  | cons a rest ih =>
    intro p i hi
    cases hsa : seenOf p a with
    | none =>
      have hc0 : countStr a p = 0 := by
        unfold seenOf at hsa
        by_cases h : countStr a p = 0
        · exact h
        · rw [if_neg h] at hsa; cases hsa
      have hstep : dedupeAux (a :: rest) (seenOf p) =
          a :: dedupeAux rest (fun m => if m = a then some 0 else seenOf p m) := by
        conv_lhs => rw [dedupeAux]
        rw [hsa]
      rw [hstep, seenOf_update_none p a hc0]
      cases i with
      | zero =>
        simp only [List.getD_cons_zero, List.take_zero, List.append_nil]
        rw [outLabel, if_pos hc0]
      | succ j =>
        have hj : j < rest.length := by simpa using hi
        rw [List.getD_cons_succ, ih (p ++ [a]) j hj, List.take_succ_cons,
          List.getD_cons_succ]
        congr 1
        simp
    | some k =>
      have hck : countStr a p = k + 1 := by
        unfold seenOf at hsa
        by_cases h : countStr a p = 0
        · rw [if_pos h] at hsa; cases hsa
        · rw [if_neg h] at hsa
          injection hsa with hk
          omega
      have hstep : dedupeAux (a :: rest) (seenOf p) =
          (a ++ "_" ++ String.mk (natStr (k + 1))) ::
            dedupeAux rest (fun m => if m = a then some (k + 1) else seenOf p m) := by
        conv_lhs => rw [dedupeAux]
        rw [hsa]
      rw [hstep, seenOf_update_some p a k hck]
      cases i with
      | zero =>
        simp only [List.getD_cons_zero, List.take_zero, List.append_nil]
        rw [outLabel, if_neg (by omega), hck]
      | succ j =>
        have hj : j < rest.length := by simpa using hi
        rw [List.getD_cons_succ, ih (p ++ [a]) j hj, List.take_succ_cons,
          List.getD_cons_succ]
        congr 1
        simp

/-- C6: normalization is length-preserving and deterministic — position
`i`'s output label is the canonicalized label, bare when no earlier label
canonicalizes to the same name, and suffixed `_k` when it has `k` earlier
occurrences (first-seen order); in particular `["Pts","PTS","pts"]`
normalizes to `["pts","pts_1","pts_2"]`. -/
theorem C6_duplicate_suffixes_first_seen_order (ls : List String) :
    (normalizeLabels ls).length = ls.length ∧
    (∀ i, i < ls.length →
      (normalizeLabels ls).getD i "" =
        outLabel ((ls.map to_snake_case).take i) ((ls.map to_snake_case).getD i "")) ∧
    normalizeLabels ["Pts", "PTS", "pts"] = ["pts", "pts_1", "pts_2"] := by
  refine ⟨?_, ?_, by decide⟩
  · rw [show normalizeLabels ls = dedupeAux (ls.map to_snake_case) (fun _ => none) from rfl,
      dedupeAux_length, List.length_map]
  · intro i hi
    have hseen : (fun _ => (none : Option ℕ)) = seenOf [] := by
      funext m
      rfl
    rw [show normalizeLabels ls = dedupeAux (ls.map to_snake_case) (fun _ => none) from rfl,
      hseen, dedupeAux_getD (ls.map to_snake_case) [] i (by rw [List.length_map]; exact hi)]
    rw [List.nil_append]

/-- Witness for C6 at `["Pts","PTS","pts"]`, position 1: the duplicate
`PTS` becomes `pts_1`. -/
theorem C6_duplicate_suffixes_first_seen_order_witness :
    (normalizeLabels ["Pts", "PTS", "pts"]).length = 3 ∧
    ((1 : ℕ) < (["Pts", "PTS", "pts"] : List String).length) ∧
    (normalizeLabels ["Pts", "PTS", "pts"]).getD 1 "" =
      outLabel (((["Pts", "PTS", "pts"] : List String).map to_snake_case).take 1)
        (((["Pts", "PTS", "pts"] : List String).map to_snake_case).getD 1 "") ∧
    normalizeLabels ["Pts", "PTS", "pts"] = ["pts", "pts_1", "pts_2"] := by
  obtain ⟨h1, h2, h3⟩ := C6_duplicate_suffixes_first_seen_order ["Pts", "PTS", "pts"]
  exact ⟨h1, by decide, h2 1 (by decide), h3⟩

/-- C2 counterexample: three concrete phase-1 task outcomes where task 2
(player game logs) fails terminally while tasks 1 and 3 succeed —
`fetch_core` returns the error, so the phase aborts and the sibling
tasks' results are not yielded. -/
theorem C2_phase1_failure_aborts_counterexample :
    fetch_core ⟨"2026", "2025-26", "Regular Season", none, false⟩
        (.ok (.resultSetsObj ["TEAM_ID"] [[some "1610612737"]]))
        (.error "HTTP 500 after exhausted retries")
        (.ok (.resultSetsObj ["PERSON_ID"] [[some "2544"]])) =
      .error "HTTP 500 after exhausted retries" := rfl

/-- C2 (amended): tasks of the dependent phases (here the roster fan-out)
catch a terminal failure at the task boundary and downgrade it to an
empty frame, so a failed task changes nothing about the phase's merged
result — it is as if the task were absent, and siblings are unaffected;
but the three phase-1 tasks gathered inside `fetch_core` have no per-task
catch: whenever one of them fails terminally, `fetch_core` itself errors
and the phase yields no sibling results. -/
theorem C2_task_failure_containment :
    (∀ (ctx : FetchContext) (ts1 ts2 : List (Int × String × Except String Payload))
      (tid : Int) (ab e : String),
      run_roster_tasks ctx (ts1 ++ (tid, ab, Except.error e) :: ts2) =
        run_roster_tasks ctx (ts1 ++ ts2)) ∧
    (∀ (ctx : FetchContext) (tp cp : Except String Payload) (e : String),
      ∃ e', fetch_core ctx tp (.error e) cp = .error e') := by
  constructor
  · intro ctx ts1 ts2 tid ab e
    unfold run_roster_tasks concatNonEmpty
    rw [List.map_append, List.map_cons, List.map_append]
    rw [List.filter_append, List.filter_cons, List.filter_append]
    rw [show roster_task ctx tid ab (.error e) = Df.empty from rfl]
    simp [Df.isEmpty, Df.empty]
  · intro ctx tp cp e
    cases tp with
    | error e1 => exact ⟨e1, rfl⟩
    | ok p1 => exact ⟨e, rfl⟩

/-- Witness for C8: writing `pd.DataFrame()` onto a populated table leaves
it untouched. -/
theorem C8_empty_rowset_is_noop_witness :
    Df.empty.isEmpty = true ∧
    upsert_raw_table (some ⟨["season", "x"], [[some "2025", some "v"]]⟩) Df.empty
      "2026" "Regular Season" = some ⟨["season", "x"], [[some "2025", some "v"]]⟩ :=
  ⟨by decide, C8_empty_rowset_is_noop _ _ _ _ (by decide)⟩

end NbaStats
